import Mathlib

/-!
Verification model of the kagejs/website documentation core:
the markdown document pipeline (`src/utils/markdown.ts`, `src/utils/shiki.ts`)
and the table-of-contents navigation index (the toc module).

String processing is modelled over `List Char` (via `String.data`) so the
regular-expression match and line splitting are fully executable and amenable
to proof.  External library calls (the YAML parser, the marked lexer/renderer,
the gfm-heading-id slugger, the shiki engine) are modelled by executable Lean
functions faithful to the library behaviour on the subset of inputs this
repository's pipeline exercises; the shiki engine itself is kept abstract as
a function parameter `ctH : String → String → Except String String`
(code, language ↦ html or raised error), matching `codeToHtml`.
-/

/-- Matches the regex fragment `\r?\n` at the head of a character list
(greedy `\r?`, as in JavaScript), returning the rest on success. -/
def dropCRLF : List Char → Option (List Char)
  | [] => none
  | c :: r =>
    if c = '\n' then some r
    else if c = '\r' then
      match r with
      | '\n' :: r2 => some r2
      | _ => none
    else none

/-- Matches the separator `\r?\n---\r?\n` of the frontmatter regex
`/^---\r?\n([\s\S]*?)\r?\n---\r?\n([\s\S]*)$/` at the head of a list. -/
def sepMatch (cs : List Char) : Option (List Char) :=
  match dropCRLF cs with
  | none => none
  | some r =>
    match r with
    | '-' :: '-' :: '-' :: r2 => dropCRLF r2
    | _ => none

/-- Finds the earliest position where `sepMatch` succeeds (the non-greedy
`([\s\S]*?)` semantics): returns the group before the separator and the
rest after it. -/
def findSep : List Char → Option (List Char × List Char)
  | [] => none
  | c :: cs =>
    match sepMatch (c :: cs) with
    | some rest => some ([], rest)
    | none =>
      match findSep cs with
      | some (g1, r) => some (c :: g1, r)
      | none => none

/-- The frontmatter regex match from `parseFrontmatter`
(`src/utils/markdown.ts`): `/^---\r?\n([\s\S]*?)\r?\n---\r?\n([\s\S]*)$/`.
Returns `(group1, group2)` — the YAML block and the markdown body. -/
def frontmatterMatch (s : String) : Option (String × String) :=
  match s.data with
  | '-' :: '-' :: '-' :: rest =>
    match dropCRLF rest with
    | none => none
    | some r =>
      match findSep r with
      | some (g1, g2) => some (String.mk g1, String.mk g2)
      | none => none
  | _ => none

/-- Splits a character list at newline characters (the lines of a text,
`splitLines []` being the single empty line). -/
def splitLines : List Char → List (List Char)
  | [] => [[]]
  | c :: r =>
    if c = '\n' then [] :: splitLines r
    else
      match splitLines r with
      | [] => [[c]]
      | l :: ls => (c :: l) :: ls

/-- Splits a character list at occurrences of the character `c`. -/
def splitOnChar (c : Char) : List Char → List (List Char)
  | [] => [[]]
  | a :: r =>
    if a = c then [] :: splitOnChar c r
    else
      match splitOnChar c r with
      | [] => [[a]]
      | l :: ls => (a :: l) :: ls

/-- Drops leading spaces. -/
def trimStart (cs : List Char) : List Char := cs.dropWhile (· = ' ')

/-- Drops trailing spaces. -/
def trimEnd (cs : List Char) : List Char := (cs.reverse.dropWhile (· = ' ')).reverse

/-- Drops leading and trailing spaces. -/
def trimSpaces (cs : List Char) : List Char := trimEnd (trimStart cs)

/-- One line of a YAML mapping: `key: value` with key and value trimmed.
A line that does not contain exactly one `:` raises. -/
def parseYamlLine (l : List Char) : Except String (String × String) :=
  match splitOnChar ':' l with
  | [k, v] => Except.ok (String.mk (trimSpaces k), String.mk (trimSpaces v))
  | _ => Except.error "yaml: cannot parse line"

/-- Models `parseYaml` of `@std/yaml` on the subset the pipeline exercises:
a line-based mapping of plain `key: value` scalars (values trimmed), blank
input yielding the empty mapping (the library returns `null`, which the
caller coalesces with `?? {}`).  Inputs outside this subset raise, as the
library does on e.g. an unclosed flow sequence (`[oops`) or a line carrying
a second `:`. -/
def parseYamlModel (s : String) : Except String (List (String × String)) :=
  let lines := (splitLines s.data).filter (fun l => trimSpaces l ≠ [])
  lines.mapM parseYamlLine

/-- Function `parseFrontmatter` from `src/utils/markdown.ts`: regex match for the
header; on no match, empty data with the whole input as content; on a match,
the YAML block is parsed, a parse failure being caught and degraded to empty
data with the remainder (group 2) as content. -/
def parseFrontmatter (content : String) : List (String × String) × String :=
  match frontmatterMatch content with
  | none => ([], content)
  | some (yamlStr, markdown) =>
    match parseYamlModel yamlStr with
    | Except.ok d => (d, markdown)
    | Except.error _ => ([], markdown)

/-- The language allow-list of `highlight` in `src/utils/shiki.ts`. -/
def validLangs : List String :=
  ["typescript", "javascript", "json", "bash", "tsx", "jsx", "ts", "js"]

/-- Function `highlight` from `src/utils/shiki.ts`, abstracted over the shiki engine
`ctH` (its `codeToHtml`, which may raise): an unrecognized tag falls back to
`"typescript"`, and the aliases `ts`/`js` are normalized before the engine
is invoked. -/
def highlight (ctH : String → String → Except String String)
    (code : String) (lang : String) : Except String String :=
  let language := if lang ∈ validLangs then lang else "typescript"
  ctH code
    (if language = "ts" then "typescript"
     else if language = "js" then "javascript"
     else language)

/-- A marked block token, restricted to the shapes the pipeline's custom
hooks touch (fenced code with its `lang`/`text` and the `highlighted` field
that `walkTokens` adds) plus headings and plain paragraphs. -/
inductive Token where
  | code (lang : String) (text : String) (highlighted : Option String)
  | heading (depth : Nat) (text : String)
  | paragraph (text : String)
  deriving DecidableEq

/-- A heading as returned by `getHeadingList` and re-packed by
`parseMarkdown`: `{id, text, level}`. -/
structure Heading where
  id : String
  text : String
  level : Nat
  deriving DecidableEq

/-- The mutable module-level state of the `marked-gfm-heading-id` plugin:
the github-slugger occurrence map and the collected heading list.  `marked`
in `src/utils/markdown.ts` is a module-level instance, so this state lives
across `parse` calls and is reset by the plugin's `preprocess` hook at the
start of every parse. -/
structure MarkedState where
  occ : List (String × Nat)
  headings : List Heading
  deriving DecidableEq

/-- Big-endian decimal digits of `n`, fuel-indexed so the definition is
structurally recursive (and hence evaluates inside the kernel). -/
def natDigitsFuel : Nat → Nat → List Nat
  | 0, _ => []
  | fuel + 1, n => if n = 0 then [] else natDigitsFuel fuel (n / 10) ++ [n % 10]

/-- Big-endian decimal digits of `n` (empty for `0`). -/
def natDigitsList (n : Nat) : List Nat := natDigitsFuel n n

/-- Decimal digit characters of a natural number (empty for `0`; the slugger
only prints positive counters). -/
def natStr (n : Nat) : String :=
  String.mk ((natDigitsList n).map Nat.digitChar)

/-- Lookup in the slugger occurrence map. -/
def lookupOcc : List (String × Nat) → String → Option Nat
  | [], _ => none
  | (k, v) :: r, s => if k = s then some v else lookupOcc r s

/-- Increment the counter stored for key `k` (the slugger's
`occurrences[originalSlug]++`). -/
def bump (occ : List (String × Nat)) (k : String) : List (String × Nat) :=
  occ.map (fun p => if p.1 = k then (p.1, p.2 + 1) else p)

/-- The collision loop of `github-slugger`'s `slug`: while the candidate is
occupied, bump the original slug's counter and retry with
`orig ++ "-" ++ counter`; on success record the result with counter `0`.
Fuel-indexed for termination; `sluggerSlug` supplies fuel proven sufficient
(`sluggerSlug_fresh`). -/
def slugLoop : Nat → List (String × Nat) → String → String → String × List (String × Nat)
  | 0, occ, _, result => (result, (result, 0) :: occ)
  | fuel + 1, occ, orig, result =>
    match lookupOcc occ result with
    | some _ =>
      let occ' := bump occ orig
      let n := (lookupOcc occ' orig).getD 0
      slugLoop fuel occ' orig (orig ++ "-" ++ natStr n)
    | none => (result, (result, 0) :: occ)

/-- Function `slugify` of github-slugger, modelled on the subset of heading texts this
site uses: lowercase, spaces become `-`, and characters other than
alphanumerics, `-` and `_` are dropped. -/
def slugify (s : String) : String :=
  String.mk ((s.data.map Char.toLower).filterMap
    (fun c =>
      if c = ' ' then some '-'
      else if c.isAlphanum ∨ c = '-' ∨ c = '_' then some c
      else none))

/-- Method `slug` of the github-slugger instance used by `marked-gfm-heading-id`:
slugify the text, then disambiguate against previously issued slugs. -/
def sluggerSlug (occ : List (String × Nat)) (value : String) :
    String × List (String × Nat) :=
  slugLoop (occ.length + 1) occ (slugify value) (slugify value)

/-- The `renderer.code` override in `src/utils/markdown.ts`: a truthy
`highlighted` string is wrapped in the shiki wrapper div, otherwise the
fence degrades to a plain `<pre><code>` block (JavaScript truthiness: the
empty string also takes the plain branch). -/
def renderCode (text : String) (highlighted : Option String) : String :=
  match highlighted with
  | some h =>
    if h = "" then "<pre><code>" ++ text ++ "</code></pre>"
    else "<div class=\"shiki-wrapper my-6\">" ++ h ++ "</div>"
  | none => "<pre><code>" ++ text ++ "</code></pre>"

/-- Render one token, threading the plugin state: headings go through the
`marked-gfm-heading-id` renderer (slug the raw text, emit
`<hN id="...">`, push onto the heading list); code goes through the
`renderer.code` override; paragraphs through marked's default renderer. -/
def renderToken (t : Token) (st : MarkedState) : String × MarkedState :=
  match t with
  | Token.code _ text highlighted => (renderCode text highlighted, st)
  | Token.heading depth text =>
    let (id, occ') := sluggerSlug st.occ text
    ("<h" ++ Nat.repr depth ++ " id=\"" ++ id ++ "\">" ++ text ++ "</h"
       ++ Nat.repr depth ++ ">\n",
     { occ := occ', headings := st.headings ++ [{ id := id, text := text, level := depth }] })
  | Token.paragraph text => ("<p>" ++ text ++ "</p>\n", st)

/-- Render a token list in document order, concatenating the markup and
threading the plugin state left to right. -/
def renderTokens : List Token → MarkedState → String × MarkedState
  | [], st => ("", st)
  | t :: ts, st =>
    let (h1, st1) := renderToken t st
    let (h2, st2) := renderTokens ts st1
    (h1 ++ h2, st2)

/-- The `walkTokens` hook of `src/utils/markdown.ts` on one token: for a
code token, `language = token.lang || "typescript"` and the awaited
`highlight` result is stored on the token.  There is no try/catch, so a
raised highlight error propagates. -/
def walkToken (ctH : String → String → Except String String) (t : Token) :
    Except String Token :=
  match t with
  | Token.code lang text _ =>
    let language := if lang = "" then "typescript" else lang
    (highlight ctH text language).map (fun h => Token.code lang text (some h))
  | t => Except.ok t

/-- The `walkTokens` hook over the whole token list; marked awaits all hook promises
with `Promise.all`, so the first rejection rejects the whole parse. -/
def walkTokensAll (ctH : String → String → Except String String)
    (ts : List Token) : Except String (List Token) :=
  ts.mapM (walkToken ctH)

/-- A line opening or closing a fenced code block (three backticks). -/
def isFenceLine : List Char → Bool
  | '`' :: '`' :: '`' :: _ => true
  | _ => false

/-- Join lines back with newlines (the text of a fenced block). -/
def joinNL : List (List Char) → List Char
  | [] => []
  | [l] => l
  | l :: ls => l ++ '\n' :: joinNL ls

/-- One non-fence line outside a code fence: an ATX heading of depth 1–4
(hashes followed by a space, text trimmed), nothing for a blank line, a
paragraph otherwise. -/
def lexLine (l : List Char) : List Token :=
  match l with
  | '#' :: ' ' :: t => [Token.heading 1 (String.mk (trimSpaces t))]
  | '#' :: '#' :: ' ' :: t => [Token.heading 2 (String.mk (trimSpaces t))]
  | '#' :: '#' :: '#' :: ' ' :: t => [Token.heading 3 (String.mk (trimSpaces t))]
  | '#' :: '#' :: '#' :: '#' :: ' ' :: t => [Token.heading 4 (String.mk (trimSpaces t))]
  | l => if trimSpaces l = [] then [] else [Token.paragraph (String.mk l)]

/-- Models the marked block lexer on the line-based markdown subset this
site's documents use, line by line.  The second argument is `some (lang,
reversed body lines)` while inside a fenced block: a ``` line opens a fence
(info string trimmed as the language tag), the next ``` line closes it and
emits the code token, and a fence left unclosed at end of input consumes the
rest as its body. -/
def lexFold : List (List Char) → Option (String × List (List Char)) → List Token
  | [], none => []
  | [], some (lang, body) => [Token.code lang (String.mk (joinNL body.reverse)) none]
  | l :: ls, none =>
    if isFenceLine l then lexFold ls (some (String.mk (trimSpaces (l.drop 3)), []))
    else lexLine l ++ lexFold ls none
  | l :: ls, some (lang, body) =>
    if isFenceLine l then
      Token.code lang (String.mk (joinNL body.reverse)) none :: lexFold ls none
    else lexFold ls (some (lang, l :: body))

/-- The marked lexer entry point: split the source into lines and lex. -/
def lex (src : String) : List Token := lexFold (splitLines src.data) none

/-- Method `marked.parse` of the module-level instance with `async: true`:
`hooks.preprocess` (the gfm-heading-id reset) runs first, then the lexer,
then `walkTokens` (whose rejection rejects the whole parse, there being no
`silent` option), then the renderer. -/
def markedParse (ctH : String → String → Except String String)
    (st : MarkedState) (src : String) : Except String (String × MarkedState) :=
  let st0 : MarkedState := { occ := [], headings := [] }
  (walkTokensAll ctH (lex src)).map (fun ts => renderTokens ts st0)

/-- The result record of `parseMarkdown`: `{html, headings, frontmatter}`. -/
structure ParsedMarkdown where
  html : String
  headings : List Heading
  frontmatter : List (String × String)
  deriving DecidableEq

/-- Function `parseMarkdown` from `src/utils/markdown.ts`: frontmatter extraction,
then `marked.parse` on the body, then `getHeadingList()` read off the plugin
state.  The state argument is the module-level plugin state carried over
from earlier calls; the updated state is returned alongside. -/
def parseMarkdown (ctH : String → String → Except String String)
    (st : MarkedState) (content : String) :
    Except String (ParsedMarkdown × MarkedState) :=
  let fm := parseFrontmatter content
  (markedParse ctH st fm.2).map
    (fun p => ({ html := p.1, headings := p.2.headings, frontmatter := fm.1 }, p.2))

deriving instance DecidableEq for Except

/-- An engine that always succeeds, tagging the code with the language it
was asked to highlight (a stand-in for shiki's `codeToHtml`, which returns
non-empty markup on the loaded languages). -/
def ctHOk : String → String → Except String String :=
  fun code lang => Except.ok ("[" ++ lang ++ "]" ++ code)

/-- An engine whose highlight call raises (as shiki does when the engine
fails to load or a grammar errors). -/
def ctHFail : String → String → Except String String :=
  fun _ _ => Except.error "shiki failed"

/-- The initial (freshly loaded module) plugin state. -/
def st0 : MarkedState := { occ := [], headings := [] }

/-- A catalog entry of the toc module: `{title, slug, file}`. -/
structure TocEntry where
  title : String
  slug : String
  file : String
  deriving DecidableEq

/-- A catalog category: `{title, items}`. -/
structure TocCategory where
  title : String
  items : List TocEntry
  deriving DecidableEq

/-- The static catalog `toc` of the toc module. -/
def toc : List TocCategory :=
  [{ title := "Getting Started",
     items :=
       [{ title := "Introduction", slug := "", file := "index.md" },
        { title := "Installation", slug := "installation", file := "installation.md" },
        { title := "Quick Start", slug := "quickstart", file := "quickstart.md" }] },
   { title := "Core Concepts",
     items :=
       [{ title := "Routing", slug := "concepts/routing", file := "concepts/routing.md" },
        { title := "Context", slug := "concepts/context", file := "concepts/context.md" },
        { title := "Middleware", slug := "concepts/middleware", file := "concepts/middleware.md" },
        { title := "Schema Validation", slug := "concepts/schema", file := "concepts/schema.md" }] },
   { title := "Advanced",
     items :=
       [{ title := "Plugins", slug := "advanced/plugins", file := "advanced/plugins.md" },
        { title := "Mounting Routers", slug := "advanced/mounting", file := "advanced/mounting.md" },
        { title := "State Management", slug := "advanced/state", file := "advanced/state.md" },
        { title := "Workers", slug := "advanced/workers", file := "advanced/workers.md" }] },
   { title := "API Reference",
     items :=
       [{ title := "Kage Class", slug := "api/kage", file := "api/kage.md" },
        { title := "Context", slug := "api/context", file := "api/context.md" },
        { title := "Types", slug := "api/types", file := "api/types.md" }] }]

/-- A flattened entry: the catalog entry augmented with its owning
category's title and its computed href. -/
structure FlatEntry where
  title : String
  slug : String
  file : String
  category : String
  href : String
  deriving DecidableEq

/-- The per-item body of `flattenToc`'s inner loop: spread the item, attach
the category title, and compute
`href = item.slug ? "/docs/" + item.slug : "/docs"` (the empty slug is
falsy in JavaScript, so it maps to the root address `/docs`). -/
def toFlat (c : TocCategory) (item : TocEntry) : FlatEntry :=
  { title := item.title, slug := item.slug, file := item.file,
    category := c.title,
    href := if item.slug = "" then "/docs" else "/docs/" ++ item.slug }

/-- Function `flattenToc`: the nested for/push loop over categories then items,
producing the flat sequence in catalog order. -/
def flattenToc : List FlatEntry :=
  toc.flatMap (fun c => c.items.map (toFlat c))

/-- The module-level `flatToc = flattenToc()`. -/
def flatToc : List FlatEntry := flattenToc

/-- A navigation reference `{title, category, href}` (the TypeScript field
`category?` is optional, but `getNavigation` always populates it). -/
structure NavEntry where
  title : String
  category : String
  href : String
  deriving DecidableEq

/-- The projection `getNavigation` applies to a neighbor entry. -/
def toNav (e : FlatEntry) : NavEntry :=
  { title := e.title, category := e.category, href := e.href }

/-- JavaScript `Array.prototype.findIndex`, with `none` for JavaScript's `-1`. -/
def findIdxAux : List FlatEntry → (FlatEntry → Bool) → Option Nat
  | [], _ => none
  | e :: r, p => if p e then some 0 else (findIdxAux r p).map (· + 1)

/-- Function `getEntryBySlug` from the toc module: exact slug match over `flatToc`
via `Array.prototype.find`. -/
def getEntryBySlug (slug : String) : Option FlatEntry :=
  flatToc.find? (fun e => e.slug = slug)

/-- Function `getNavigation` from the toc module: locate the slug's index in
`flatToc` (`findIndex`, an absent slug giving `-1` and the empty result),
then take `flatToc[idx - 1]` and `flatToc[idx + 1]` — at `idx = 0`,
`flatToc[-1]` is `undefined`, so `prev` is absent. -/
def getNavigation (slug : String) : Option NavEntry × Option NavEntry :=
  match findIdxAux flatToc (fun e => e.slug = slug) with
  | none => (none, none)
  | some idx =>
    ((if idx = 0 then none else (flatToc[idx - 1]?).map toNav),
     (flatToc[idx + 1]?).map toNav)

/-- The set of identifiers the slugger has already issued (the keys of its
occurrence map). -/
def keysOcc (occ : List (String × Nat)) : List String := occ.map Prod.fst

/-- The headings a parse result carries (none when the parse rejected). -/
def headingsOf (r : Except String (ParsedMarkdown × MarkedState)) : List Heading :=
  match r with
  | Except.ok (p, _) => p.headings
  | Except.error _ => []

/-- The scalar values admitted in the well-formed-header theorem: non-empty,
made of letters, digits, spaces, dashes and underscores, starting with a
letter, not ending in a space, and not one of the words the YAML parser
resolves to a boolean, null or float instead of a string. -/
def plainScalarOk (x : String) : Prop :=
  x ≠ "" ∧
  (∀ c ∈ x.data, c.isAlpha ∨ c.isDigit ∨ c = ' ' ∨ c = '-' ∨ c = '_') ∧
  (∀ c ∈ x.data.take 1, c.isAlpha) ∧
  x.data.getLast? ≠ some ' ' ∧
  String.mk (x.data.map Char.toLower) ∉
    (["true", "false", "null", "yes", "no", "on", "off", "nan", "inf"] : List String)

instance (x : String) : Decidable (plainScalarOk x) := by
  unfold plainScalarOk
  infer_instance

/-- A header line as the claim describes them: free of newline and carriage
return characters and not itself a closing delimiter. -/
def goodLine (l : String) : Prop :=
  (∀ c ∈ l.data, c ≠ '\n' ∧ c ≠ '\r') ∧ l ≠ "---"

instance (l : String) : Decidable (goodLine l) := by
  unfold goodLine
  infer_instance

/-- Join lines with newlines. -/
def joinLines : List String → String
  | [] => ""
  | [l] => l
  | l :: ls => l ++ "\n" ++ joinLines ls

/-- The character tail after a block's first line: the remaining lines, each
preceded by its newline, followed by the final `\n---` with nothing after
it. -/
def tailChars : List String → List Char
  | [] => ['\n', '-', '-', '-']
  | l :: ls => '\n' :: (l.data ++ tailChars ls)

/-- The flattened root entry (used to witness the address-scheme claim). -/
def introEntry : FlatEntry :=
  { title := "Introduction", slug := "", file := "index.md",
    category := "Getting Started", href := "/docs" }

/-! Sanity checks of the executable model on concrete inputs. -/

example : parseFrontmatter "---\ntitle: X\n---\nbody" = ([("title", "X")], "body") := by decide
example : parseFrontmatter "---\n[oops\n---\nbody" = ([], "body") := by decide
example : parseFrontmatter "no header here" = ([], "no header here") := by decide

example :
    (parseMarkdown ctHOk st0 "# Example\n\ntext\n\n# Example\n\n## Example").map
        (fun p => p.1.headings) =
      Except.ok
        [{ id := "example", text := "Example", level := 1 },
         { id := "example-1", text := "Example", level := 1 },
         { id := "example-2", text := "Example", level := 2 }] := by
  decide

/-! Lemmas: decimal printing is injective. -/

theorem natDigitsFuel_eq (fuel n : Nat) (h : n ≤ fuel) :
    natDigitsFuel fuel n = (Nat.digits 10 n).reverse := by
  induction fuel generalizing n with
  | zero =>
    interval_cases n
    simp [natDigitsFuel]
  | succ fuel ih =>
    by_cases h0 : n = 0
    · simp [natDigitsFuel, h0]
    · have hdiv : n / 10 ≤ fuel := by
        have : n / 10 < n := Nat.div_lt_self (Nat.pos_of_ne_zero h0) (by norm_num)
        omega
      rw [natDigitsFuel, if_neg h0, ih _ hdiv,
        Nat.digits_def' (by norm_num : (1 : Nat) < 10) (Nat.pos_of_ne_zero h0)]
      simp

theorem natDigitsList_eq (n : Nat) : natDigitsList n = (Nat.digits 10 n).reverse :=
  natDigitsFuel_eq n n le_rfl

theorem natDigitsList_lt (n : Nat) : ∀ d ∈ natDigitsList n, d < 10 := by
  intro d hd
  rw [natDigitsList_eq, List.mem_reverse] at hd
  exact Nat.digits_lt_base (by norm_num) hd

theorem digitChar_inj_lt {a b : Nat} (ha : a < 10) (hb : b < 10)
    (h : Nat.digitChar a = Nat.digitChar b) : a = b := by
  have key : ∀ x y : Fin 10, Nat.digitChar x.val = Nat.digitChar y.val → x = y := by decide
  have := key ⟨a, ha⟩ ⟨b, hb⟩ h
  exact congrArg Fin.val this

theorem map_digitChar_inj : ∀ (l1 l2 : List Nat), (∀ x ∈ l1, x < 10) → (∀ x ∈ l2, x < 10) →
    l1.map Nat.digitChar = l2.map Nat.digitChar → l1 = l2
  | [], [], _, _, _ => rfl
  | [], _ :: _, _, _, h => by simp at h
  | _ :: _, [], _, _, h => by simp at h
  | a :: l1, b :: l2, h1, h2, h => by
    simp only [List.map_cons, List.cons.injEq] at h
    have hab := digitChar_inj_lt (h1 a (by simp)) (h2 b (by simp)) h.1
    have := map_digitChar_inj l1 l2 (fun x hx => h1 x (by simp [hx]))
      (fun x hx => h2 x (by simp [hx])) h.2
    rw [hab, this]

theorem natStr_inj {n m : Nat} (h : natStr n = natStr m) : n = m := by
  have hd : (natDigitsList n).map Nat.digitChar = (natDigitsList m).map Nat.digitChar :=
    congrArg String.data h
  have hl : natDigitsList n = natDigitsList m :=
    map_digitChar_inj _ _ (natDigitsList_lt n) (natDigitsList_lt m) hd
  rw [natDigitsList_eq, natDigitsList_eq] at hl
  have hdig : Nat.digits 10 n = Nat.digits 10 m := List.reverse_injective hl
  have := congrArg (Nat.ofDigits 10) hdig
  rwa [Nat.ofDigits_digits, Nat.ofDigits_digits] at this

/-! Lemmas: the slugger always issues a fresh identifier. -/

theorem lookupOcc_eq_none_iff (occ : List (String × Nat)) (s : String) :
    lookupOcc occ s = none ↔ s ∉ keysOcc occ := by
  induction occ with
  | nil => simp [lookupOcc, keysOcc]
  | cons p r ih =>
    obtain ⟨k, v⟩ := p
    by_cases h : k = s
    · subst h
      simp [lookupOcc, keysOcc]
    · have hne : ¬ s = k := fun hc => h hc.symm
      simp [lookupOcc, keysOcc, h, hne, ih]

theorem keysOcc_bump (occ : List (String × Nat)) (k : String) :
    keysOcc (bump occ k) = keysOcc occ := by
  induction occ with
  | nil => rfl
  | cons p r ih =>
    simp only [bump, keysOcc, List.map_cons] at ih ⊢
    refine congrArg₂ List.cons ?_ ih
    split <;> rfl

theorem bump_cons (a : String) (b : Nat) (r : List (String × Nat)) (k : String) :
    bump ((a, b) :: r) k = (if a = k then (a, b + 1) else (a, b)) :: bump r k := by
  by_cases h : a = k <;> simp [bump, h]

theorem lookupOcc_bump_self (occ : List (String × Nat)) (k : String) :
    lookupOcc (bump occ k) k = (lookupOcc occ k).map (· + 1) := by
  induction occ with
  | nil => rfl
  | cons p r ih =>
    obtain ⟨a, b⟩ := p
    rw [bump_cons]
    by_cases h : a = k
    · subst h
      rw [if_pos rfl]
      simp [lookupOcc]
    · rw [if_neg h]
      simp [lookupOcc, h, ih]

theorem keysOcc_length (occ : List (String × Nat)) :
    (keysOcc occ).length = occ.length := List.length_map _ _

/-- Candidates with distinct counters are distinct strings. -/
theorem cand_inj (orig : String) {a b : Nat} (h : orig ++ "-" ++ natStr a = orig ++ "-" ++ natStr b) :
    a = b := by
  have hd := congrArg String.data h
  rw [String.data_append, String.data_append, String.data_append, String.data_append] at hd
  exact natStr_inj (String.ext (List.append_cancel_left hd))

/-- Pigeonhole: among `K.length + 1` distinct candidate slugs, one is not
in `K`. -/
theorem exists_fresh (K : List String) (orig : String) (c : Nat) :
    ∃ j, j < K.length + 1 ∧ (orig ++ "-" ++ natStr (c + j + 1)) ∉ K := by
  by_contra hcon
  push_neg at hcon
  set f : Nat → String := fun j => orig ++ "-" ++ natStr (c + j + 1) with hf
  have hinj : Function.Injective f := by
    intro a b h
    have := cand_inj orig h
    omega
  set cands : List String := (List.range (K.length + 1)).map f with hc
  have hnodup : cands.Nodup := (List.nodup_range _).map hinj
  have hsub : ∀ x ∈ cands, x ∈ K := by
    intro x hx
    rw [hc, List.mem_map] at hx
    obtain ⟨j, hj, rfl⟩ := hx
    exact hcon j (List.mem_range.mp hj)
  have hle : cands.length ≤ K.length := by
    calc cands.length = cands.toFinset.card := (List.toFinset_card_of_nodup hnodup).symm
      _ ≤ K.toFinset.card := Finset.card_le_card (fun x hx =>
          List.mem_toFinset.mpr (hsub x (List.mem_toFinset.mp hx)))
      _ ≤ K.length := List.toFinset_card_le K
  rw [hc] at hle
  simp at hle

theorem slugLoop_spec : ∀ (fuel : Nat) (occ : List (String × Nat)) (orig result : String)
    (c : Nat), lookupOcc occ orig = some c →
    (result ∉ keysOcc occ ∨
      ∃ j, j < fuel ∧ (orig ++ "-" ++ natStr (c + j + 1)) ∉ keysOcc occ) →
    (slugLoop fuel occ orig result).1 ∉ keysOcc occ ∧
      keysOcc (slugLoop fuel occ orig result).2 =
        (slugLoop fuel occ orig result).1 :: keysOcc occ := by
  intro fuel
  induction fuel with
  | zero =>
    intro occ orig result c _ hyp
    rcases hyp with hyp | ⟨j, hj, _⟩
    · exact ⟨hyp, rfl⟩
    · omega
  | succ fuel ih =>
    intro occ orig result c hc hyp
    by_cases hres : lookupOcc occ result = none
    · rw [slugLoop, hres]
      exact ⟨(lookupOcc_eq_none_iff occ result).mp hres, rfl⟩
    · obtain ⟨v, hv⟩ := Option.ne_none_iff_exists'.mp hres
      have hmem : result ∈ keysOcc occ := by
        by_contra hnm
        exact hres ((lookupOcc_eq_none_iff occ result).mpr hnm)
      rcases hyp with hyp | ⟨j, hj, hfresh⟩
      · exact absurd hmem hyp
      have hstep : slugLoop (fuel + 1) occ orig result =
          slugLoop fuel (bump occ orig) orig
            (orig ++ "-" ++ natStr (((lookupOcc (bump occ orig) orig).getD 0))) := by
        rw [slugLoop, hv]
      have hbl : lookupOcc (bump occ orig) orig = some (c + 1) := by
        rw [lookupOcc_bump_self, hc]; rfl
      have hkeys : keysOcc (bump occ orig) = keysOcc occ := keysOcc_bump occ orig
      have hgd : ((lookupOcc (bump occ orig) orig).getD 0) = c + 1 := by
        rw [hbl]; rfl
      have hih := ih (bump occ orig) orig (orig ++ "-" ++ natStr (c + 1)) (c + 1) hbl ?_
      · rw [hstep, hgd]
        rw [hkeys] at hih
        exact hih
      · cases j with
        | zero =>
          left
          rw [hkeys]
          simpa using hfresh
        | succ j' =>
          right
          refine ⟨j', by omega, ?_⟩
          rw [hkeys]
          have harith : c + 1 + j' + 1 = c + (j' + 1) + 1 := by omega
          rw [harith]
          exact hfresh

/-- Every call of the slugger returns an identifier not yet issued, and
afterwards the issued set is exactly the old set plus the new identifier. -/
theorem sluggerSlug_fresh (occ : List (String × Nat)) (v : String) :
    (sluggerSlug occ v).1 ∉ keysOcc occ ∧
      keysOcc (sluggerSlug occ v).2 = (sluggerSlug occ v).1 :: keysOcc occ := by
  unfold sluggerSlug
  by_cases h : lookupOcc occ (slugify v) = none
  · cases hocc : occ.length + 1 with
    | zero => omega
    | succ fuel =>
      rw [slugLoop, h]
      exact ⟨(lookupOcc_eq_none_iff occ (slugify v)).mp h, rfl⟩
  · obtain ⟨c, hc⟩ := Option.ne_none_iff_exists'.mp h
    apply slugLoop_spec (occ.length + 1) occ (slugify v) (slugify v) c hc
    right
    have := exists_fresh (keysOcc occ) (slugify v) c
    rw [keysOcc_length] at this
    exact this

/-- Rendering preserves the invariant: collected heading ids are distinct
and all of them are recorded in the slugger occurrence map. -/
theorem renderTokens_nodup_inv : ∀ (ts : List Token) (st : MarkedState),
    ((st.headings.map Heading.id).Nodup ∧
      ∀ h ∈ st.headings, h.id ∈ keysOcc st.occ) →
    (((renderTokens ts st).2.headings.map Heading.id).Nodup ∧
      ∀ h ∈ (renderTokens ts st).2.headings, h.id ∈ keysOcc (renderTokens ts st).2.occ) := by
  intro ts
  induction ts with
  | nil => intro st hst; exact hst
  | cons t ts ih =>
    intro st hst
    obtain ⟨hnd, hmem⟩ := hst
    show (((renderTokens ts (renderToken t st).2).2.headings.map Heading.id).Nodup ∧ _)
    apply ih
    cases t with
    | code lang text highlighted => exact ⟨hnd, hmem⟩
    | paragraph text => exact ⟨hnd, hmem⟩
    | heading depth text =>
      obtain ⟨hfresh, hkeys⟩ := sluggerSlug_fresh st.occ text
      constructor
      · simp only [renderToken, List.map_append, List.map_cons, List.map_nil]
        rw [List.nodup_append]
        refine ⟨hnd, by simp, ?_⟩
        intro x hx
        simp only [List.mem_singleton]
        intro hz
        rcases hz with hz
        subst hz
        obtain ⟨hh, hhm, hhid⟩ := List.mem_map.mp hx
        exact hfresh (hhid ▸ hmem hh hhm)
      · intro h hh
        simp only [renderToken] at hh ⊢
        rw [hkeys]
        rcases List.mem_append.mp hh with hold | hnew
        · exact List.mem_cons_of_mem _ (hmem h hold)
        · simp at hnew
          subst hnew
          exact List.mem_cons_self _ _

/-- If `walkTokens` raises on some token of the list, `Promise.all` rejects:
`mapM` returns an error. -/
theorem mapM_walkToken_error (ctH : String → String → Except String String) :
    ∀ (ts : List Token) (t : Token), t ∈ ts →
    (∃ e, walkToken ctH t = Except.error e) →
    ∃ e, ts.mapM (walkToken ctH) = Except.error e := by
  intro ts
  induction ts with
  | nil => intro t ht; exact absurd ht (List.not_mem_nil t)
  | cons a ts ih =>
    intro t ht ⟨e, he⟩
    rw [List.mapM_cons]
    rcases List.mem_cons.mp ht with rfl | hts
    · rw [he]
      exact ⟨e, rfl⟩
    · cases ha : walkToken ctH a with
      | error e' => exact ⟨e', rfl⟩
      | ok b =>
        obtain ⟨e'', he''⟩ := ih t hts ⟨e, he⟩
        rw [he'']
        exact ⟨e'', rfl⟩

/-- If the engine never raises, `walkTokens` never raises. -/
theorem mapM_walkToken_total (ctH : String → String → Except String String)
    (htot : ∀ c l, ∃ h, ctH c l = Except.ok h) :
    ∀ ts : List Token, ∃ bs, ts.mapM (walkToken ctH) = Except.ok bs := by
  intro ts
  induction ts with
  | nil => exact ⟨[], rfl⟩
  | cons a ts ih =>
    obtain ⟨bs, hbs⟩ := ih
    have ha : ∃ b, walkToken ctH a = Except.ok b := by
      cases a with
      | code lang text highlighted =>
        obtain ⟨h, hh⟩ := htot text
          (if (if lang = "" then "typescript" else lang) ∈ validLangs then
            (if (if lang = "" then "typescript" else lang) = "ts" then "typescript"
             else if (if lang = "" then "typescript" else lang) = "js" then "javascript"
             else (if lang = "" then "typescript" else lang))
           else "typescript")
        refine ⟨Token.code lang text (some h), ?_⟩
        simp only [walkToken, highlight]
        by_cases hv : (if lang = "" then "typescript" else lang) ∈ validLangs <;>
          simp only [hv, if_pos, if_neg, if_true, if_false] <;>
          simp_all [Except.map]
      | heading depth text => exact ⟨Token.heading depth text, rfl⟩
      | paragraph text => exact ⟨Token.paragraph text, rfl⟩
    obtain ⟨b, hb⟩ := ha
    rw [List.mapM_cons, hb, hbs]
    exact ⟨b :: bs, rfl⟩

/-- C5: for every document (and any engine and any carried-over plugin
state), the heading identifiers collected by `parseMarkdown` are pairwise
distinct, even when heading texts repeat verbatim. -/
theorem parse_heading_ids_nodup (ctH : String → String → Except String String)
    (st : MarkedState) (content : String) :
    ((headingsOf (parseMarkdown ctH st content)).map Heading.id).Nodup := by
  cases hw : walkTokensAll ctH (lex (parseFrontmatter content).2) with
  | error e =>
    simp [headingsOf, parseMarkdown, markedParse, hw, Except.map]
  | ok ts =>
    have hinv := renderTokens_nodup_inv ts { occ := [], headings := [] }
      (by constructor <;> simp)
    simpa [headingsOf, parseMarkdown, markedParse, hw, Except.map] using hinv.1

/-- C6: parsing is deterministic — two invocations of `parseMarkdown` on the
same text (with the same engine) yield identical results, whatever plugin
state each invocation starts from, because the gfm-heading-id `preprocess`
hook resets the module-level state at the start of every parse. -/
theorem parse_deterministic (ctH : String → String → Except String String)
    (content : String) (st1 st2 : MarkedState) :
    parseMarkdown ctH st1 content = parseMarkdown ctH st2 content := rfl

/-- C1 counterexample: a raising highlight call rejects the whole-document
parse (`walkTokens` has no try/catch and marked is not in `silent` mode), so
the claimed plain-code fallback never happens for this document. -/
theorem highlight_error_not_degraded :
    parseMarkdown ctHFail st0 "```ts\nlet x = 1\n```" = Except.error "shiki failed" := by
  decide

/-- C1 amended: if the highlighting of any fence of the document raises, the
whole-document parse fails (the promise rejects) rather than falling back to
a plain code rendering. -/
theorem parse_rejects_on_highlight_error (ctH : String → String → Except String String)
    (st : MarkedState) (content lang text : String) (h0 : Option String)
    (hmem : Token.code lang text h0 ∈ lex (parseFrontmatter content).2)
    (hfail : ∃ e, highlight ctH text (if lang = "" then "typescript" else lang) =
      Except.error e) :
    ∃ e, parseMarkdown ctH st content = Except.error e := by
  have hwt : ∃ e, walkToken ctH (Token.code lang text h0) = Except.error e := by
    obtain ⟨e, he⟩ := hfail
    exact ⟨e, by simp [walkToken, he, Except.map]⟩
  obtain ⟨e, he⟩ := mapM_walkToken_error ctH _ _ hmem hwt
  refine ⟨e, ?_⟩
  simp [parseMarkdown, markedParse, walkTokensAll] at he ⊢
  simp [he, Except.map]

/-- C1 amended, witnessed at a concrete document and failing engine. -/
theorem parse_rejects_on_highlight_error_instance :
    ∃ e, parseMarkdown ctHFail st0 "```ts\nx\n```" = Except.error e :=
  parse_rejects_on_highlight_error ctHFail st0 "```ts\nx\n```" "ts" "x" none
    (by decide) ⟨"shiki failed", by decide⟩

/-- C2 counterexample: a fence tagged with an unrecognized language parses
successfully but is rendered through the shiki wrapper (highlighted as the
default language), not as the claimed plain `<pre><code>` block. -/
theorem unknown_lang_not_rendered_plain :
    parseMarkdown ctHOk st0 "```python\nx\n```" =
      Except.ok
        ({ html := "<div class=\"shiki-wrapper my-6\">[typescript]x</div>",
           headings := [], frontmatter := [] }, st0) ∧
    ("<div class=\"shiki-wrapper my-6\">[typescript]x</div>" : String) ≠
      "<pre><code>x</code></pre>" := by
  constructor <;> decide

/-- C2 amended: with an engine that does not raise, parse always completes
successfully, and an unrecognized language tag is silently replaced by the
default language `typescript` before the engine highlights the block. -/
theorem unknown_lang_defaults_to_typescript (ctH : String → String → Except String String)
    (htot : ∀ c l, ∃ h, ctH c l = Except.ok h) :
    (∀ (st : MarkedState) (content : String),
      ∃ r, parseMarkdown ctH st content = Except.ok r) ∧
    (∀ text lang, lang ∉ validLangs → highlight ctH text lang = ctH text "typescript") := by
  constructor
  · intro st content
    obtain ⟨bs, hbs⟩ := mapM_walkToken_total ctH htot (lex (parseFrontmatter content).2)
    refine ⟨({ html := (renderTokens bs { occ := [], headings := [] }).1,
               headings := (renderTokens bs { occ := [], headings := [] }).2.headings,
               frontmatter := (parseFrontmatter content).1 },
             (renderTokens bs { occ := [], headings := [] }).2), ?_⟩
    simp only [parseMarkdown, markedParse, walkTokensAll]
    rw [hbs]
    rfl
  · intro text lang hl
    simp [highlight, hl]

/-- C2 amended, witnessed at a concrete document and unrecognized tag. -/
theorem unknown_lang_defaults_to_typescript_instance :
    (∃ r, parseMarkdown ctHOk st0 "```python\nx\n```" = Except.ok r) ∧
    highlight ctHOk "x" "python" = ctHOk "x" "typescript" := by
  have h := unknown_lang_defaults_to_typescript ctHOk
    (fun c l => ⟨"[" ++ l ++ "]" ++ c, rfl⟩)
  exact ⟨h.1 st0 "```python\nx\n```", h.2 "x" "python" (by decide)⟩

/-- C3 counterexample: on a malformed header whose delimiters are well
formed (`[oops` raises in the YAML parser), the body is the remainder after
the closing delimiter — the header lines are dropped, so the entire input is
not treated as the document body as the claim states. -/
theorem malformed_header_keeps_remainder_only :
    parseFrontmatter "---\n[oops\n---\nbody" = ([], "body") ∧
    ("body" : String) ≠ "---\n[oops\n---\nbody" := by
  constructor <;> decide

/-- C3 amended: metadata extraction never raises and degrades to empty
metadata; with no recognized header the entire input is the body, while with
a recognized header whose structured block fails to parse the body is the
remainder after the closing delimiter (the header lines are excluded). -/
theorem frontmatter_error_handling :
    (∀ content, frontmatterMatch content = none →
      parseFrontmatter content = ([], content)) ∧
    (∀ content y md e, frontmatterMatch content = some (y, md) →
      parseYamlModel y = Except.error e → parseFrontmatter content = ([], md)) := by
  constructor
  · intro content h
    simp [parseFrontmatter, h]
  · intro content y md e h hy
    simp [parseFrontmatter, h, hy]

/-- C3 amended, witnessed on an absent header and on a malformed header. -/
theorem frontmatter_error_handling_instance :
    parseFrontmatter "no header here" = ([], "no header here") ∧
    parseFrontmatter "---\n[oops\n---\nbody" = ([], "body") :=
  ⟨frontmatter_error_handling.1 "no header here" (by decide),
   frontmatter_error_handling.2 "---\n[oops\n---\nbody" "[oops" "body"
     "yaml: cannot parse line" (by decide) (by decide)⟩

/-! Lemmas: the frontmatter regular expression. -/

theorem dropCRLF_nl (y : List Char) : dropCRLF ('\n' :: y) = some y := rfl

theorem dropCRLF_cons_none {c : Char} (h1 : c ≠ '\n') (h2 : c ≠ '\r') (x : List Char) :
    dropCRLF (c :: x) = none := by
  simp [dropCRLF, h1, h2]

theorem sepMatch_cons_none {c : Char} (h1 : c ≠ '\n') (h2 : c ≠ '\r') (x : List Char) :
    sepMatch (c :: x) = none := by
  simp [sepMatch, dropCRLF_cons_none h1 h2]

/-- The non-greedy scan passes over characters that cannot start the
separator. -/
theorem findSep_skip : ∀ (l cs : List Char), (∀ c ∈ l, c ≠ '\n' ∧ c ≠ '\r') →
    findSep (l ++ cs) = (findSep cs).map (fun p => (l ++ p.1, p.2))
  | [], cs, _ => by
    cases h : findSep cs with
    | none => simp [h]
    | some p => simp [h]
  | c :: l, cs, hgood => by
    have hc := hgood c (by simp)
    have ih := findSep_skip l cs (fun d hd => hgood d (by simp [hd]))
    rw [List.cons_append, findSep]
    rw [sepMatch_cons_none hc.1 hc.2]
    rw [ih]
    cases h : findSep cs with
    | none => simp
    | some p => simp

theorem findSep_append_none (l cs : List Char) (hgood : ∀ c ∈ l, c ≠ '\n' ∧ c ≠ '\r')
    (h : findSep cs = none) : findSep (l ++ cs) = none := by
  rw [findSep_skip l cs hgood, h]
  rfl

theorem findSep_boundary (rest : List Char) :
    findSep ('\n' :: '-' :: '-' :: '-' :: '\n' :: rest) = some ([], rest) := rfl

theorem scalar_char_good {c : Char}
    (h : c.isAlpha ∨ c.isDigit ∨ c = ' ' ∨ c = '-' ∨ c = '_') :
    c ≠ '\n' ∧ c ≠ '\r' ∧ c ≠ ':' := by
  refine ⟨?_, ?_, ?_⟩ <;> rintro rfl <;> rcases h with h | h | h | h | h <;> revert h <;> decide

theorem splitLines_single : ∀ (cs : List Char), (∀ c ∈ cs, c ≠ '\n') →
    splitLines cs = [cs]
  | [], _ => rfl
  | c :: cs, h => by
    rw [splitLines, if_neg (h c (by simp)), splitLines_single cs (fun d hd => h d (by simp [hd]))]

theorem splitOnChar_single (sep : Char) : ∀ (cs : List Char), (∀ c ∈ cs, c ≠ sep) →
    splitOnChar sep cs = [cs]
  | [], _ => rfl
  | c :: cs, h => by
    rw [splitOnChar, if_neg (h c (by simp)),
      splitOnChar_single sep cs (fun d hd => h d (by simp [hd]))]

theorem trimStart_cons_space (l : List Char) : trimStart (' ' :: l) = trimStart l := by
  simp [trimStart, List.dropWhile_cons]

theorem trimStart_of_head {c : Char} (h : ¬ c = ' ') (l : List Char) :
    trimStart (c :: l) = c :: l := by
  simp [trimStart, List.dropWhile_cons, h]

theorem trimEnd_of_getLast {l : List Char} (h : l.getLast? ≠ some ' ') :
    trimEnd l = l := by
  cases hrev : l.reverse with
  | nil =>
    have : l = [] := List.reverse_eq_nil_iff.mp hrev
    simp [this, trimEnd]
  | cons a as =>
    have ha : a ≠ ' ' := by
      intro hc
      apply h
      rw [← List.head?_reverse, hrev, hc]
      rfl
    have : trimEnd l = (a :: as).reverse := by
      simp [trimEnd, hrev, List.dropWhile_cons, ha]
    rw [this, ← hrev, List.reverse_reverse]

/-- C4: a well-formed header `---\ntitle: X\n---\nbody` (with `X` a plain
scalar) yields metadata `{title: X}` and exactly `body` as the document
body — the header lines are excluded from what gets rendered. -/
theorem parseFrontmatter_wellformed (x body : String) (hx : plainScalarOk x) :
    parseFrontmatter ("---\ntitle: " ++ x ++ "\n---\n" ++ body) = ([("title", x)], body) := by
  obtain ⟨hne, hchars, hhead, hlast, _⟩ := hx
  have hgood : ∀ c ∈ x.data, c ≠ '\n' ∧ c ≠ '\r' :=
    fun c hc => ⟨(scalar_char_good (hchars c hc)).1, (scalar_char_good (hchars c hc)).2.1⟩
  have hnc : ∀ c ∈ x.data, c ≠ ':' := fun c hc => (scalar_char_good (hchars c hc)).2.2
  have hmk : ("---\ntitle: " ++ x ++ "\n---\n" ++ body) =
      String.mk ('-' :: '-' :: '-' :: '\n' ::
        (['t', 'i', 't', 'l', 'e', ':', ' '] ++
          (x.data ++ ('\n' :: '-' :: '-' :: '-' :: '\n' :: body.data)))) := by
    apply String.ext
    simp [String.data_append, List.append_assoc]
  have hfm : frontmatterMatch ("---\ntitle: " ++ x ++ "\n---\n" ++ body) =
      some (String.mk (['t', 'i', 't', 'l', 'e', ':', ' '] ++ x.data), body) := by
    rw [hmk]
    show (match findSep (['t', 'i', 't', 'l', 'e', ':', ' '] ++
        (x.data ++ ('\n' :: '-' :: '-' :: '-' :: '\n' :: body.data))) with
      | some (g1, g2) => some (String.mk g1, String.mk g2)
      | none => none) = _
    rw [findSep_skip _ _
      (by decide : ∀ c ∈ (['t', 'i', 't', 'l', 'e', ':', ' '] : List Char), c ≠ '\n' ∧ c ≠ '\r')]
    rw [findSep_skip _ _ hgood, findSep_boundary]
    simp
  have hnl : ∀ c ∈ ('t' :: 'i' :: 't' :: 'l' :: 'e' :: ':' :: ' ' :: x.data), c ≠ '\n' := by
    intro c hc
    rcases List.mem_append.mp
      (show c ∈ (['t', 'i', 't', 'l', 'e', ':', ' '] ++ x.data) from hc) with h | h
    · fin_cases h <;> decide
    · exact (hgood c h).1
  have hv : trimSpaces (' ' :: x.data) = x.data := by
    unfold trimSpaces
    rw [trimStart_cons_space]
    cases hxd : x.data with
    | nil =>
      exact absurd (String.ext (by rw [hxd])) hne
    | cons c r =>
      have hca : c.isAlpha := hhead c (by rw [hxd]; simp)
      have hcs : ¬ c = ' ' := by
        intro hc
        rw [hc] at hca
        exact absurd hca (by decide)
      rw [trimStart_of_head hcs, ← hxd]
      exact trimEnd_of_getLast hlast
  have hne' : trimSpaces ('t' :: 'i' :: 't' :: 'l' :: 'e' :: ':' :: ' ' :: x.data) ≠ [] := by
    intro hcon
    unfold trimSpaces at hcon
    rw [trimStart_of_head (by decide)] at hcon
    unfold trimEnd at hcon
    have h1 := List.reverse_eq_nil_iff.mp hcon
    have h2 := List.dropWhile_eq_nil_iff.mp h1
    have h3 := h2 't' (by simp)
    simp at h3
  have hline : parseYamlLine ('t' :: 'i' :: 't' :: 'l' :: 'e' :: ':' :: ' ' :: x.data) =
      Except.ok ("title", x) := by
    unfold parseYamlLine
    have hx1 : splitOnChar ':' x.data = [x.data] := splitOnChar_single ':' x.data hnc
    have hsp : splitOnChar ':' ('t' :: 'i' :: 't' :: 'l' :: 'e' :: ':' :: ' ' :: x.data) =
        [['t', 'i', 't', 'l', 'e'], ' ' :: x.data] := by
      simp [splitOnChar, hx1]
    rw [hsp]
    show Except.ok (String.mk (trimSpaces ['t', 'i', 't', 'l', 'e']),
      String.mk (trimSpaces (' ' :: x.data))) = Except.ok (("title", x) : String × String)
    rw [hv]
    rfl
  have hyaml : parseYamlModel
      (String.mk ('t' :: 'i' :: 't' :: 'l' :: 'e' :: ':' :: ' ' :: x.data)) =
      Except.ok [("title", x)] := by
    unfold parseYamlModel
    rw [show (String.mk ('t' :: 'i' :: 't' :: 'l' :: 'e' :: ':' :: ' ' :: x.data)).data =
      't' :: 'i' :: 't' :: 'l' :: 'e' :: ':' :: ' ' :: x.data from rfl]
    rw [splitLines_single _ hnl]
    have hcond : (decide (trimSpaces ('t' :: 'i' :: 't' :: 'l' :: 'e' :: ':' :: ' ' :: x.data) ≠ [])) = true :=
      decide_eq_true hne'
    rw [List.filter_cons, if_pos hcond, List.filter_nil]
    show List.mapM parseYamlLine [('t' :: 'i' :: 't' :: 'l' :: 'e' :: ':' :: ' ' :: x.data)] =
      Except.ok [("title", x)]
    rw [List.mapM_cons, hline, List.mapM_nil]
    rfl
  unfold parseFrontmatter
  rw [hfm]
  show (match parseYamlModel (String.mk (['t', 'i', 't', 'l', 'e', ':', ' '] ++ x.data)) with
    | Except.ok d => (d, body)
    | Except.error _ => (([] : List (String × String)), body)) = ([("title", x)], body)
  rw [show (String.mk (['t', 'i', 't', 'l', 'e', ':', ' '] ++ x.data)) =
    String.mk ('t' :: 'i' :: 't' :: 'l' :: 'e' :: ':' :: ' ' :: x.data) from rfl]
  rw [hyaml]

/-- C4, witnessed at a concrete well-formed document. -/
theorem parseFrontmatter_wellformed_instance :
    parseFrontmatter "---\ntitle: Hello World\n---\n# Hi" =
      ([("title", "Hello World")], "# Hi") := by
  have h := parseFrontmatter_wellformed "Hello World" "# Hi" (by decide)
  exact h

/-! Lemmas: a header whose closing delimiter lacks a trailing newline. -/

theorem tailChars_head : ∀ ls : List String, ∃ t, tailChars ls = '\n' :: t
  | [] => ⟨['-', '-', '-'], rfl⟩
  | _ :: _ => ⟨_, rfl⟩

theorem joinLines_data : ∀ (l : String) (ls : List String),
    (joinLines (l :: ls)).data ++ ['\n', '-', '-', '-'] = l.data ++ tailChars ls
  | l, [] => rfl
  | l, m :: ms => by
    show ((l ++ "\n" ++ joinLines (m :: ms))).data ++ ['\n', '-', '-', '-'] = _
    rw [String.data_append, String.data_append]
    have ih := joinLines_data m ms
    show ((l.data ++ ['\n']) ++ (joinLines (m :: ms)).data) ++ ['\n', '-', '-', '-'] = _
    rw [List.append_assoc, List.append_assoc]
    show l.data ++ ('\n' :: ((joinLines (m :: ms)).data ++ ['\n', '-', '-', '-'])) = _
    rw [ih]
    rfl

/-- At the newline before a good line, the separator `\r?\n---\r?\n` cannot
match: the line is not a delimiter, and the text after a true final
delimiter has no newline left. -/
theorem sepMatch_at_tail (m : String) (t' : List Char) (hg : goodLine m) :
    sepMatch ('\n' :: (m.data ++ '\n' :: t')) = none := by
  unfold sepMatch
  rw [dropCRLF_nl]
  show (match m.data ++ '\n' :: t' with
    | '-' :: '-' :: '-' :: r2 => dropCRLF r2
    | _ => none) = none
  split
  · next r2 heq =>
    rcases hmd : m.data with _ | ⟨a, _ | ⟨b, _ | ⟨c, rest⟩⟩⟩ <;> rw [hmd] at heq <;>
      simp only [List.nil_append, List.cons_append, List.cons.injEq] at heq
    · exact absurd heq.1 (by decide)
    · exact absurd heq.2.1 (by decide)
    · exact absurd heq.2.2.1 (by decide)
    · obtain ⟨ha, hb, hc, hr⟩ := heq
      cases rest with
      | nil =>
        refine absurd (String.ext ?_) hg.2
        rw [hmd, ha, hb, hc]
      | cons d ds =>
        have hd : d ≠ '\n' ∧ d ≠ '\r' := hg.1 d (by rw [hmd]; simp)
        rw [← hr]
        rw [show (d :: ds) ++ '\n' :: t' = d :: (ds ++ '\n' :: t') from rfl]
        exact dropCRLF_cons_none hd.1 hd.2 _
  · rfl

theorem findSep_tailChars : ∀ ls : List String, (∀ m ∈ ls, goodLine m) →
    findSep (tailChars ls) = none
  | [], _ => rfl
  | m :: ms, hg => by
    show findSep ('\n' :: (m.data ++ tailChars ms)) = none
    rw [findSep]
    obtain ⟨t', ht⟩ := tailChars_head ms
    rw [show m.data ++ tailChars ms = m.data ++ '\n' :: t' from by rw [ht]]
    rw [sepMatch_at_tail m t' (hg m (by simp))]
    have hrec : findSep (m.data ++ '\n' :: t') = none := by
      rw [← show m.data ++ tailChars ms = m.data ++ '\n' :: t' from by rw [ht]]
      exact findSep_append_none m.data (tailChars ms)
        (fun c hc => (hg m (by simp)).1 c hc)
        (findSep_tailChars ms (fun l hl => hg l (by simp [hl])))
    rw [hrec]

/-- C10: an input that opens with a delimiter line and a block of header
lines but whose closing `---` is the final line with no newline after it is
not recognized as a metadata header: metadata is empty and the entire input,
delimiters and all, is the document body. -/
theorem parseFrontmatter_no_trailing_newline (ls : List String) (hne : ls ≠ [])
    (hg : ∀ l ∈ ls, goodLine l) :
    parseFrontmatter ("---\n" ++ joinLines ls ++ "\n---") =
      ([], "---\n" ++ joinLines ls ++ "\n---") := by
  suffices h : frontmatterMatch ("---\n" ++ joinLines ls ++ "\n---") = none by
    simp [parseFrontmatter, h]
  cases ls with
  | nil => exact absurd rfl hne
  | cons l ls' =>
    have hdata : ("---\n" ++ joinLines (l :: ls') ++ "\n---").data =
        '-' :: '-' :: '-' :: '\n' :: (l.data ++ tailChars ls') := by
      rw [String.data_append, String.data_append]
      rw [show ("---\n" : String).data = ['-', '-', '-', '\n'] from rfl,
        show ("\n---" : String).data = ['\n', '-', '-', '-'] from rfl]
      rw [List.append_assoc]
      rw [joinLines_data l ls']
      rfl
    have hmk : ("---\n" ++ joinLines (l :: ls') ++ "\n---") =
        String.mk ('-' :: '-' :: '-' :: '\n' :: (l.data ++ tailChars ls')) :=
      String.ext hdata
    rw [hmk]
    show (match findSep (l.data ++ tailChars ls') with
      | some (g1, g2) => some (String.mk g1, String.mk g2)
      | none => none) = none
    rw [findSep_append_none l.data (tailChars ls')
      (fun c hc => (hg l (by simp)).1 c hc)
      (findSep_tailChars ls' (fun m hm => hg m (by simp [hm])))]

/-- C10, witnessed at the concrete document of the claim. -/
theorem parseFrontmatter_no_trailing_newline_instance :
    parseFrontmatter "---\ntitle: X\n---" = ([], "---\ntitle: X\n---") :=
  parseFrontmatter_no_trailing_newline ["title: X"] (by decide) (by decide)

/-! The navigation index claims. -/

theorem findIdxAux_eq_none (l : List FlatEntry) (p : FlatEntry → Bool)
    (h : ∀ e ∈ l, ¬ p e) : findIdxAux l p = none := by
  induction l with
  | nil => rfl
  | cons e r ih =>
    rw [findIdxAux, if_neg (by simpa using h e (by simp)),
      ih (fun x hx => h x (by simp [hx]))]
    rfl

/-- C7: the flattened sequence preserves the catalog's category-then-item
order exactly — the entry at position (entries of earlier categories) + i is
item i of category j — its length is the total item count, and slugs are
pairwise distinct across the whole flattened sequence. -/
theorem flattenToc_order_and_unique_slugs :
    (flatToc.map (fun e => e.slug)).Nodup ∧
    flatToc.length = ((toc.map (fun c => c.items.length)).sum) ∧
    (∀ j : Fin toc.length, ∀ i : Fin (toc.get j).items.length,
      flatToc[((toc.take j.val).map (fun c => c.items.length)).sum + i.val]? =
        some (toFlat (toc.get j) ((toc.get j).items.get i))) := by
  refine ⟨by decide, by decide, by decide⟩

/-- C8: `getNavigation` returns an empty result for a slug not in the
flattened sequence; for the first entry there is no previous and the next is
the second entry; for the last entry next is absent; and in general previous
and next are the immediately adjacent entries in flattened order. -/
theorem getNavigation_neighbors :
    (∀ s : String, (∀ e ∈ flatToc, e.slug ≠ s) → getNavigation s = (none, none)) ∧
    getNavigation "" =
      (none, some { title := "Installation", category := "Getting Started",
                    href := "/docs/installation" }) ∧
    (getNavigation "api/types").2 = none ∧
    (∀ i : Fin flatToc.length,
      getNavigation (flatToc.get i).slug =
        ((if i.val = 0 then none else (flatToc[i.val - 1]?).map toNav),
         (flatToc[i.val + 1]?).map toNav)) := by
  refine ⟨?_, by decide, by decide, by decide⟩
  intro s hs
  unfold getNavigation
  rw [findIdxAux_eq_none _ _ (by intro e he; simpa using hs e he)]

/-- C8, witnessed at a slug absent from the catalog. -/
theorem getNavigation_neighbors_instance :
    getNavigation "nonexistent-slug" = (none, none) :=
  getNavigation_neighbors.1 "nonexistent-slug" (by decide)

/-- C9: `getEntryBySlug ""` resolves to the entry whose address is the root
address `/docs`; an unknown slug resolves to nothing; and every flattened
entry's address is the root address for the empty slug and the `/docs/`
prefix joined with the slug otherwise. -/
theorem getEntryBySlug_resolution :
    getEntryBySlug "" =
      some { title := "Introduction", slug := "", file := "index.md",
             category := "Getting Started", href := "/docs" } ∧
    getEntryBySlug "nonexistent-slug" = none ∧
    (∀ e ∈ flatToc, e.href = if e.slug = "" then "/docs" else "/docs/" ++ e.slug) := by
  refine ⟨by decide, by decide, by decide⟩

/-- C9, witnessed at the root entry of the flattened sequence. -/
theorem getEntryBySlug_resolution_instance :
    introEntry.href = if introEntry.slug = "" then "/docs" else "/docs/" ++ introEntry.slug :=
  getEntryBySlug_resolution.2.2 introEntry (by decide)

